import Mathlib

/-!
Verification of the "ifadinabox" COSOP multi-agent simulation repository.

The frontend TypeScript sources (`frontend/app/lib/types.ts`,
`frontend/app/lib/api.ts`, `frontend/app/lib/useRunEvents.ts`,
`frontend/app/runs/[runId]/page.tsx`, concatenated in the repository
snapshot) are embedded directly.  The backend simulation core (Evidence
Index, Round Loop, Candidate Manager, Scorer & Selector, Event Emitter)
is not part of the source snapshot — only its assets and frontend callers
are — so those components are modelled from the specification text, as
marked in the corresponding doc comments.
-/

/-- JSON-like values, modelling the untyped (`any`) payloads carried by
frontend events and API responses. -/
inductive JsonValue where
  | null : JsonValue
  | bool (b : Bool) : JsonValue
  | num (q : Rat) : JsonValue
  | str (s : String) : JsonValue
  | arr (elems : List JsonValue) : JsonValue
  | obj (fields : List (String × JsonValue)) : JsonValue

/-- Embeds the `EventType` union from `frontend/app/lib/types.ts`:
`"log" | "graph_update" | "round_update" | "draft_created" |
"review_result" | "run_status"`. -/
inductive EventType where
  | log : EventType
  | graph_update : EventType
  | round_update : EventType
  | draft_created : EventType
  | review_result : EventType
  | run_status : EventType
  deriving DecidableEq

/-- Embeds the `RunEvent` record from `frontend/app/lib/types.ts`:
`{event_id, run_id, ts, type, payload}` (the `ts` field carries the
event's timestamp). -/
structure RunEvent where
  event_id : String
  run_id : String
  ts : String
  type : EventType
  payload : JsonValue

/-- Embeds the status union of `CheckboxStatus.status` from
`frontend/app/lib/types.ts`: `"true" | "false" | "partial"`. -/
inductive CheckStatusVal where
  | statusTrue : CheckStatusVal
  | statusFalse : CheckStatusVal
  | statusPartial : CheckStatusVal
  deriving DecidableEq

/-- The string literal each `CheckStatusVal` variant stands for in the
TypeScript union. -/
def CheckStatusVal.toStr : CheckStatusVal → String
  | .statusTrue => "true"
  | .statusFalse => "false"
  | .statusPartial => "partial"

/-- Embeds the `CheckboxStatus` record from `frontend/app/lib/types.ts`:
`{id, label, status, rationale, evidence?}`. -/
structure CheckboxStatus where
  id : String
  label : String
  status : CheckStatusVal
  rationale : String
  evidence : Option (List JsonValue)

/-- Embeds the severity union of `ReviewComment.severity` from
`frontend/app/lib/types.ts`: `"blocker" | "major" | "minor"`. -/
inductive Severity where
  | blocker : Severity
  | major : Severity
  | minor : Severity
  deriving DecidableEq

/-- Embeds the `ReviewComment` record from `frontend/app/lib/types.ts`:
`{severity, section, comment, suggestion?}`. -/
structure ReviewComment where
  severity : Severity
  «section» : String
  comment : String
  suggestion : Option String

/-- C4: every `RunEvent` is exactly its five fields `event_id`, `run_id`,
`ts` (the timestamp), `type` and `payload`, and the `type` field ranges
over exactly the six event kinds `log`, `graph_update`, `round_update`,
`draft_created`, `review_result`, `run_status` (all pairwise distinct). -/
theorem runEvent_shape_eventType_exhaustive :
    (∀ e : RunEvent, e = RunEvent.mk e.event_id e.run_id e.ts e.type e.payload) ∧
    (∀ t : EventType,
      t ∈ [EventType.log, EventType.graph_update, EventType.round_update,
           EventType.draft_created, EventType.review_result, EventType.run_status]) ∧
    ([EventType.log, EventType.graph_update, EventType.round_update,
      EventType.draft_created, EventType.review_result, EventType.run_status]).Nodup := by
  refine ⟨fun e => rfl, fun t => ?_, by decide⟩
  cases t <;> simp

/-- C8 counterexample: a checklist entry does not consist of only `id`,
`status` and `rationale` — the embedded `CheckboxStatus` record carries a
further required `label` field, so two entries agreeing on `id`, `status`
and `rationale` can still differ. -/
theorem checkboxStatus_not_determined_by_id_status_rationale :
    ¬ (∀ a b : CheckboxStatus,
        a.id = b.id → a.status = b.status → a.rationale = b.rationale → a = b) := by
  intro h
  have h2 := h ⟨"x", "Label one", .statusTrue, "r", none⟩
      ⟨"x", "Label two", .statusTrue, "r", none⟩ rfl rfl rfl
  have h3 := congrArg CheckboxStatus.label h2
  simp at h3

/-- C8 (amended): every checklist entry consists of exactly the fields
`id`, `label`, `status`, `rationale` and an optional `evidence` list,
with `status` one of exactly `{true, false, partial}`; every review
comment consists of exactly a `severity` (one of exactly
`{blocker, major, minor}`), a `section`, a `comment` and an optional
`suggestion`. -/
theorem checkboxStatus_reviewComment_shape :
    (∀ c : CheckboxStatus,
      c = CheckboxStatus.mk c.id c.label c.status c.rationale c.evidence) ∧
    (∀ v : CheckStatusVal,
      v ∈ [CheckStatusVal.statusTrue, CheckStatusVal.statusFalse,
           CheckStatusVal.statusPartial]) ∧
    ((List.map CheckStatusVal.toStr
        [CheckStatusVal.statusTrue, CheckStatusVal.statusFalse,
         CheckStatusVal.statusPartial]) = ["true", "false", "partial"] ∧
      (["true", "false", "partial"] : List String).Nodup) ∧
    (∀ r : ReviewComment,
      r = ReviewComment.mk r.severity r.«section» r.comment r.suggestion) ∧
    (∀ s : Severity, s ∈ [Severity.blocker, Severity.major, Severity.minor]) ∧
    ([Severity.blocker, Severity.major, Severity.minor]).Nodup := by
  refine ⟨fun c => rfl, fun v => ?_, ⟨rfl, by decide⟩, fun r => rfl, fun s => ?_, by decide⟩
  · cases v <;> simp
  · cases s <;> simp

/-- Abstraction of an HTTP `fetch` response as the frontend observes it:
`ok`, `status`, `statusText`, the result of `res.text()` (`none` when the
body text cannot be read — the code's `.catch(() => "")` then substitutes
`""`), and the result of `res.json()` (`none` when the body is not valid
JSON, in which case `res.json()` rejects). -/
structure HttpResponse where
  ok : Bool
  status : Nat
  statusText : String
  textResult : Option String
  jsonResult : Option JsonValue

/-- Embeds `apiFetch` from `frontend/app/lib/api.ts`: on a non-ok response
it throws an `Error` whose message is `` `${res.status} ${res.statusText} ${text}` ``
(with `text` the body text, or `""` when `res.text()` rejects); on an ok
response it returns the response. -/
def apiFetch (res : HttpResponse) : Except String HttpResponse :=
  if res.ok then Except.ok res
  else Except.error
    (toString res.status ++ " " ++ res.statusText ++ " " ++ res.textResult.getD "")

/-- Models `res.json()`: returns the parsed JSON body, or throws when the
body is not valid JSON. -/
def responseJson (res : HttpResponse) : Except String JsonValue :=
  match res.jsonResult with
  | some j => Except.ok j
  | none => Except.error "SyntaxError: response body is not valid JSON"

/-- Embeds `createProject` from `frontend/app/lib/api.ts`:
`apiFetch` then `res.json()`. -/
def createProject (res : HttpResponse) : Except String JsonValue :=
  match apiFetch res with
  | Except.ok r => responseJson r
  | Except.error e => Except.error e

/-- Embeds `setInputs` from `frontend/app/lib/api.ts`: `apiFetch` only,
the body is discarded. -/
def setInputs (res : HttpResponse) : Except String Unit :=
  match apiFetch res with
  | Except.ok _ => Except.ok ()
  | Except.error e => Except.error e

/-- Embeds `uploadFiles` from `frontend/app/lib/api.ts`: `apiFetch` only,
the body is discarded. -/
def uploadFiles (res : HttpResponse) : Except String Unit :=
  match apiFetch res with
  | Except.ok _ => Except.ok ()
  | Except.error e => Except.error e

/-- Embeds `startRun` from `frontend/app/lib/api.ts`:
`apiFetch` then `res.json()`. -/
def startRun (res : HttpResponse) : Except String JsonValue :=
  match apiFetch res with
  | Except.ok r => responseJson r
  | Except.error e => Except.error e

/-- Embeds `getRun` from `frontend/app/lib/api.ts`:
`apiFetch` then `res.json()`. -/
def getRun (res : HttpResponse) : Except String JsonValue :=
  match apiFetch res with
  | Except.ok r => responseJson r
  | Except.error e => Except.error e

/-- String `sub` occurs contiguously inside string `m`. -/
def containsSubstring (m sub : String) : Prop :=
  ∃ a b, m = a ++ sub ++ b

/-- C9 counterexample: `createProject` can throw on an ok response — when
the ok body is not valid JSON, `res.json()` rejects — so "throws if and
only if the response has a non-ok status" fails on this ok response. -/
theorem createProject_errors_on_ok_response :
    (HttpResponse.mk true 200 "OK" (some "not json") none).ok = true ∧
    createProject (HttpResponse.mk true 200 "OK" (some "not json") none) =
      Except.error "SyntaxError: response body is not valid JSON" :=
  ⟨rfl, rfl⟩

/-- C9 (amended): every frontend API function throws on a non-ok response,
with one shared error message containing the numeric status code, the
status text and the response body text; on an ok response `setInputs` and
`uploadFiles` return without error, while `createProject`, `startRun` and
`getRun` return the JSON-parsed body whenever the body parses as JSON
(and throw a JSON parse error otherwise). -/
theorem apiFunctions_error_behaviour :
    ∀ res : HttpResponse,
      (res.ok = false →
        ∃ m, createProject res = Except.error m ∧ setInputs res = Except.error m ∧
          uploadFiles res = Except.error m ∧ startRun res = Except.error m ∧
          getRun res = Except.error m ∧
          containsSubstring m (toString res.status) ∧
          containsSubstring m res.statusText ∧
          containsSubstring m (res.textResult.getD "")) ∧
      (res.ok = true →
        setInputs res = Except.ok () ∧ uploadFiles res = Except.ok () ∧
        ∀ j, res.jsonResult = some j →
          createProject res = Except.ok j ∧ startRun res = Except.ok j ∧
            getRun res = Except.ok j) := by
  intro res
  constructor
  · intro hok
    have ha : apiFetch res =
        Except.error (toString res.status ++ " " ++ res.statusText ++ " " ++
          res.textResult.getD "") := by
      simp [apiFetch, hok]
    refine ⟨toString res.status ++ " " ++ res.statusText ++ " " ++ res.textResult.getD "",
      ?_, ?_, ?_, ?_, ?_, ?_, ?_, ?_⟩
    · simp [createProject, ha]
    · simp [setInputs, ha]
    · simp [uploadFiles, ha]
    · simp [startRun, ha]
    · simp [getRun, ha]
    · exact ⟨"", " " ++ res.statusText ++ " " ++ res.textResult.getD "", by
        simp [String.append_assoc]⟩
    · exact ⟨toString res.status ++ " ", " " ++ res.textResult.getD "", by
        simp [String.append_assoc]⟩
    · exact ⟨toString res.status ++ " " ++ res.statusText ++ " ", "", by
        simp [String.append_assoc]⟩
  · intro hok
    have ha : apiFetch res = Except.ok res := by simp [apiFetch, hok]
    refine ⟨by simp [setInputs, ha], by simp [uploadFiles, ha], ?_⟩
    intro j hj
    refine ⟨?_, ?_, ?_⟩ <;> simp [createProject, startRun, getRun, ha, responseJson, hj]

/-- Embeds the `ws.onmessage` handler of `useRunEvents` from
`frontend/app/lib/useRunEvents.ts`: `JSON.parse` (abstracted as the
`parse` argument; an `Except.error` result models a thrown parse
exception) is tried on the message data; on success the `onEvent`
callback is invoked once with the parsed event, on failure the catch
block ignores the message.  The returned list is the sequence of
`onEvent` invocations the message causes; totality of the function is
the fact that no exception escapes the handler. -/
def wsOnMessage (parse : String → Except String RunEvent) (data : String) :
    List RunEvent :=
  match parse data with
  | Except.ok ev => [ev]
  | Except.error _ => []

/-- The `onEvent` invocations a sequence of WebSocket messages causes,
processed in arrival order. -/
def wsProcessMessages (parse : String → Except String RunEvent)
    (msgs : List String) : List RunEvent :=
  msgs.flatMap (wsOnMessage parse)

/-- C10: a message whose data parses invokes `onEvent` exactly once with
the parsed event, a message whose data fails to parse invokes it never
(the handler returns normally, so no exception propagates), and over a
message sequence the invocations are exactly the successfully parsed
events in arrival order. -/
theorem useRunEvents_onmessage_behaviour :
    ∀ (parse : String → Except String RunEvent) (msgs : List String),
      wsProcessMessages parse msgs =
        msgs.filterMap (fun d => (parse d).toOption) ∧
      (∀ d ev, parse d = Except.ok ev → wsOnMessage parse d = [ev]) ∧
      (∀ d e, parse d = Except.error e → wsOnMessage parse d = []) := by
  intro parse msgs
  refine ⟨?_, ?_, ?_⟩
  · induction msgs with
    | nil => rfl
    | cons d rest ih =>
      have hrest : rest.flatMap (wsOnMessage parse) =
          rest.filterMap (fun d => (parse d).toOption) := ih
      cases h : parse d <;>
        simp [wsProcessMessages, wsOnMessage, h, Except.toOption, hrest]
  · intro d ev h
    simp [wsOnMessage, h]
  · intro d e h
    simp [wsOnMessage, h]

/-- One entry of the `nodesState` record kept by `RunPage` in
`frontend/app/runs/[runId]/page.tsx`: `{ label, status }`. -/
structure NodeInfo where
  label : String
  status : String
  deriving DecidableEq

/-- A node of a `graph_update` payload's `nodes` list as the handler reads
it: `n.id`, optional `n.label`, optional `n.status`. -/
structure PayloadNode where
  id : String
  label : Option String
  status : Option String

/-- An edge of the stakeholder graph: `{ source, target, label? }`. -/
structure EdgeSpec where
  source : String
  target : String
  label : Option String

/-- The parts of a `graph_update` payload the `RunPage` handler reads:
`payload.nodes`, `payload.edges` and `payload.node_status` (the latter a
JavaScript object, read through `Object.entries`, hence a key-value list
with no duplicate keys). -/
structure GraphUpdatePayload where
  nodes : Option (List PayloadNode)
  edges : Option (List EdgeSpec)
  node_status : Option (List (String × String))

/-- The graph state `RunPage` keeps: the `nodesState` record (node id →
`{label, status}`) and the `edgesState` list. -/
structure GraphState where
  nodes : String → Option NodeInfo
  edges : List EdgeSpec

/-- Embeds the `nodes` branch of the handler: `next[n.id] = { label:
n.label ?? n.id, status: n.status ?? "idle" }` over a fresh empty
record. -/
def buildNodes (ns : List PayloadNode) : String → Option NodeInfo :=
  ns.foldl
    (fun acc n => fun k =>
      if k = n.id then some ⟨n.label.getD n.id, n.status.getD "idle"⟩ else acc k)
    (fun _ => none)

/-- Embeds one iteration of the `node_status` loop: `copy[id] = { label:
copy[id]?.label ?? id, status: String(st) }`. -/
def stepNodeStatus (m : String → Option NodeInfo) (p : String × String) :
    String → Option NodeInfo :=
  fun k =>
    if k = p.1 then some ⟨(m p.1).elim p.1 (fun n => n.label), p.2⟩ else m k

/-- Embeds the whole `node_status` loop over `Object.entries(ev.payload.node_status)`. -/
def applyNodeStatus (m : String → Option NodeInfo)
    (us : List (String × String)) : String → Option NodeInfo :=
  us.foldl stepNodeStatus m

/-- Embeds the `graph_update` arm of the `useRunEvents` callback in
`RunPage`: a non-empty `payload.nodes` replaces the whole node record, a
non-empty `payload.edges` replaces the edge list, and a present
`payload.node_status` is folded over the node record entry by entry. -/
def handleGraphUpdate (p : GraphUpdatePayload) (st : GraphState) : GraphState :=
  let st1 := match p.nodes with
    | some ns => if ns.isEmpty then st else { st with nodes := buildNodes ns }
    | none => st
  let st2 := match p.edges with
    | some es => if es.isEmpty then st1 else { st1 with edges := es }
    | none => st1
  match p.node_status with
  | some us => { st2 with nodes := applyNodeStatus st2.nodes us }
  | none => st2

/-- The label the handler would read for node `k` in record `m`:
`m[k]?.label ?? k`. -/
def labelAt (m : String → Option NodeInfo) (k : String) : String :=
  (m k).elim k (fun n => n.label)

theorem stepNodeStatus_labelAt (m : String → Option NodeInfo)
    (p : String × String) (k : String) :
    labelAt (stepNodeStatus m p) k = labelAt m k := by
  by_cases h : k = p.1 <;> simp [stepNodeStatus, labelAt, h]

theorem applyNodeStatus_labelAt (us : List (String × String))
    (m : String → Option NodeInfo) (k : String) :
    labelAt (applyNodeStatus m us) k = labelAt m k := by
  induction us generalizing m with
  | nil => rfl
  | cons p rest ih =>
    calc labelAt (applyNodeStatus (stepNodeStatus m p) rest) k
        = labelAt (stepNodeStatus m p) k := ih _
      _ = labelAt m k := stepNodeStatus_labelAt m p k

theorem applyNodeStatus_not_listed (us : List (String × String))
    (m : String → Option NodeInfo) (k : String)
    (hk : k ∉ us.map Prod.fst) :
    applyNodeStatus m us k = m k := by
  induction us generalizing m with
  | nil => rfl
  | cons p rest ih =>
    simp only [List.map_cons, List.mem_cons, not_or] at hk
    calc applyNodeStatus (stepNodeStatus m p) rest k
        = stepNodeStatus m p k := ih _ hk.2
      _ = m k := by simp [stepNodeStatus, hk.1]

theorem applyNodeStatus_listed (us : List (String × String))
    (m : String → Option NodeInfo) (k : String) (v : String)
    (hnd : (us.map Prod.fst).Nodup) (hkv : (k, v) ∈ us) :
    applyNodeStatus m us k = some ⟨labelAt m k, v⟩ := by
  induction us generalizing m with
  | nil => simp at hkv
  | cons p rest ih =>
    simp only [List.map_cons, List.nodup_cons] at hnd
    rcases List.mem_cons.mp hkv with heq | hmem
    · have hk1 : k = p.1 := by rw [← heq]
      have hv : v = p.2 := by rw [← heq]
      have hnot : k ∉ rest.map Prod.fst := hk1 ▸ hnd.1
      calc applyNodeStatus (stepNodeStatus m p) rest k
          = stepNodeStatus m p k := applyNodeStatus_not_listed rest _ k hnot
        _ = some ⟨labelAt m k, v⟩ := by
            simp [stepNodeStatus, hk1, hv, labelAt]
    · have hne : k ≠ p.1 := by
        intro h
        exact hnd.1 (h ▸ List.mem_map.mpr ⟨(k, v), hmem, rfl⟩)
      calc applyNodeStatus (stepNodeStatus m p) rest k
          = some ⟨labelAt (stepNodeStatus m p) k, v⟩ := ih _ hnd.2 hmem
        _ = some ⟨labelAt m k, v⟩ := by rw [stepNodeStatus_labelAt]

/-- C7: for a `graph_update` event whose payload carries only a
`node_status` mapping (no `nodes`, no `edges`), the handler leaves the
edge list and every unlisted node entry unchanged, and rewrites each
listed node id to its listed status while keeping the existing label (a
listed id not previously present is added with its id as label). -/
theorem graphUpdate_nodeStatus_frame :
    ∀ (p : GraphUpdatePayload) (st : GraphState) (us : List (String × String)),
      p.nodes = none → p.edges = none → p.node_status = some us →
      (us.map Prod.fst).Nodup →
      (handleGraphUpdate p st).edges = st.edges ∧
      (∀ k, k ∉ us.map Prod.fst → (handleGraphUpdate p st).nodes k = st.nodes k) ∧
      (∀ k v, (k, v) ∈ us →
        (handleGraphUpdate p st).nodes k = some ⟨labelAt st.nodes k, v⟩) := by
  intro p st us hn he hs hnd
  have hred : handleGraphUpdate p st =
      { st with nodes := applyNodeStatus st.nodes us } := by
    simp [handleGraphUpdate, hn, he, hs]
  refine ⟨by rw [hred], fun k hk => ?_, fun k v hkv => ?_⟩
  · rw [hred]
    exact applyNodeStatus_not_listed us st.nodes k hk
  · rw [hred]
    exact applyNodeStatus_listed us st.nodes k v hnd hkv

/-- C7 witness: the frame theorem applied to a concrete one-entry
`node_status` payload over a two-node state. -/
theorem graphUpdate_nodeStatus_frame_witness :
    ((⟨none, none, some [("cd", "writing")]⟩ : GraphUpdatePayload).nodes = none) ∧
    ((⟨none, none, some [("cd", "writing")]⟩ : GraphUpdatePayload).edges = none) ∧
    ((⟨none, none, some [("cd", "writing")]⟩ : GraphUpdatePayload).node_status =
      some [("cd", "writing")]) ∧
    (([("cd", "writing")].map Prod.fst).Nodup) ∧
    ((handleGraphUpdate ⟨none, none, some [("cd", "writing")]⟩
        ⟨fun k => if k = "cd" then some ⟨"Country Director", "idle"⟩ else none, []⟩).edges =
      (⟨fun k => if k = "cd" then some ⟨"Country Director", "idle"⟩ else none, []⟩ :
        GraphState).edges ∧
      (∀ k, k ∉ [("cd", "writing")].map Prod.fst →
        (handleGraphUpdate ⟨none, none, some [("cd", "writing")]⟩
          ⟨fun k => if k = "cd" then some ⟨"Country Director", "idle"⟩ else none, []⟩).nodes k =
        (⟨fun k => if k = "cd" then some ⟨"Country Director", "idle"⟩ else none, []⟩ :
          GraphState).nodes k) ∧
      (∀ k v, (k, v) ∈ [("cd", "writing")] →
        (handleGraphUpdate ⟨none, none, some [("cd", "writing")]⟩
          ⟨fun k => if k = "cd" then some ⟨"Country Director", "idle"⟩ else none, []⟩).nodes k =
        some ⟨labelAt (⟨fun k => if k = "cd" then some ⟨"Country Director", "idle"⟩ else none,
          []⟩ : GraphState).nodes k, v⟩)) :=
  ⟨rfl, rfl, rfl, by decide,
    graphUpdate_nodeStatus_frame ⟨none, none, some [("cd", "writing")]⟩
      ⟨fun k => if k = "cd" then some ⟨"Country Director", "idle"⟩ else none, []⟩
      [("cd", "writing")] rfl rfl rfl (by decide)⟩

/-- Modelled from the spec: one emission request handed to the backend
Event Emitter (`emit(run_id, type, payload) -> RunEvent`); the emitter
itself is not part of the source snapshot. -/
structure EmitRequest where
  type : EventType
  ts : String
  payload : JsonValue

/-- Modelled from the spec: a backend `RunEvent` as the Event Emitter
produces it, with its numeric per-run `event_id`. -/
structure EmittedEvent where
  event_id : Nat
  run_id : String
  ts : String
  type : EventType
  payload : JsonValue

/-- Modelled from the spec: the per-run state of the Event Emitter — the
append-only event list and the next `event_id` to assign (assignment is
serialized per run). -/
structure EmitterState where
  events : List EmittedEvent
  next_id : Nat

/-- The emitter state of a fresh run: no events, ids start at 0. -/
def emitterInit : EmitterState :=
  { events := [], next_id := 0 }

/-- Modelled from the spec: `emit` assigns the monotonically increasing
per-run `event_id` and appends the event. -/
def emit (run_id : String) (st : EmitterState) (r : EmitRequest) : EmitterState :=
  { events := st.events ++ [⟨st.next_id, run_id, r.ts, r.type, r.payload⟩],
    next_id := st.next_id + 1 }

theorem emit_foldl_event_ids (run_id : String) (reqs : List EmitRequest) :
    ∀ st : EmitterState,
      ((reqs.foldl (emit run_id) st).events.map EmittedEvent.event_id) =
        st.events.map EmittedEvent.event_id ++ List.range' st.next_id reqs.length := by
  induction reqs with
  | nil => intro st; simp
  | cons r rest ih =>
    intro st
    rw [List.foldl_cons, ih (emit run_id st r)]
    simp [emit, List.range'_succ, List.append_assoc]
theorem eventEmitter_ids_strictly_increasing_gapless :
    ∀ (run_id : String) (reqs : List EmitRequest),
      ((reqs.foldl (emit run_id) emitterInit).events.map EmittedEvent.event_id =
        List.range reqs.length) ∧
      ((reqs.foldl (emit run_id) emitterInit).events.map
        EmittedEvent.event_id).Pairwise (· < ·) ∧
      (∀ e, e ∈ (reqs.foldl (emit run_id) emitterInit).events → e.run_id = run_id) := by
  intro run_id reqs
  have h := emit_foldl_event_ids run_id reqs emitterInit
  have hrange : (reqs.foldl (emit run_id) emitterInit).events.map
      EmittedEvent.event_id = List.range reqs.length := by
    rw [h]
    simp [emitterInit, List.range_eq_range']
  refine ⟨hrange, ?_, ?_⟩
  · rw [hrange]
    exact List.pairwise_lt_range reqs.length
  · have haux : ∀ (rs : List EmitRequest) (st : EmitterState),
        (∀ e ∈ st.events, e.run_id = run_id) →
        ∀ e ∈ (rs.foldl (emit run_id) st).events, e.run_id = run_id := by
      intro rs
      induction rs with
      | nil => intro st hst; simpa using hst
      | cons r rest ih =>
        intro st hst
        refine ih (emit run_id st r) ?_
        intro e he
        rcases List.mem_append.mp he with h1 | h2
        · exact hst e h1
        · simp only [List.mem_singleton] at h2
          rw [h2]
    exact haux reqs emitterInit (by simp [emitterInit])

/-- Modelled from the spec: an `EvidenceChunk`
`{id, source_name, text, sequence_index}` of the backend Evidence Index;
the index itself is not part of the source snapshot. -/
structure EvidenceChunk where
  id : Nat
  source_name : String
  text : String
  sequence_index : Nat

/-- Modelled from the spec: the per-run Evidence Index — the ingested
chunks in ingestion order, plus the term-weighting cache that is computed
once after ingestion closes (`none` while unset). -/
structure EvidenceIndex where
  chunks : List EvidenceChunk
  idfCache : Option (String → Rat)

/-- A string that is empty or consists only of whitespace. -/
def isBlank (s : String) : Bool :=
  s.toList.all (fun c => c.isWhitespace)

/-- Modelled from the spec: the validation error the Evidence Index raises
for a chunk with empty or whitespace-only text. -/
inductive IngestError where
  | validationError (source_name : String) : IngestError
  deriving DecidableEq

/-- Modelled from the spec: ingesting one `(source_name, text)` chunk.
Blank text is rejected with a validation error and the index is left
unchanged; otherwise the chunk is appended, preserving call order, with
the next `sequence_index`, and the weighting cache is reset (it is
recomputed after ingestion closes). -/
def ingestChunk (idx : EvidenceIndex) (source_name text : String) :
    EvidenceIndex × Option IngestError :=
  if isBlank text then (idx, some (IngestError.validationError source_name))
  else
    ({ chunks := idx.chunks ++
        [⟨idx.chunks.length, source_name, text, idx.chunks.length⟩],
       idfCache := none },
     none)

/-- C5: ingesting a chunk whose text is empty or whitespace-only signals a
validation error — it is not silently skipped — and leaves the Evidence
Index (in particular its chunk count) unchanged, so the caller still
holds the index built from the rest of the batch. -/
theorem ingest_blank_chunk_rejected :
    ∀ (idx : EvidenceIndex) (source_name text : String),
      isBlank text = true →
      (ingestChunk idx source_name text).2 =
        some (IngestError.validationError source_name) ∧
      (ingestChunk idx source_name text).1 = idx ∧
      (ingestChunk idx source_name text).1.chunks.length = idx.chunks.length := by
  intro idx source_name text h
  refine ⟨?_, ?_, ?_⟩ <;> simp [ingestChunk, h]

/-- C5 witness: the rejection theorem applied to the empty text over the
empty index. -/
theorem ingest_blank_chunk_rejected_witness :
    isBlank "" = true ∧
    ((ingestChunk ⟨[], none⟩ "upload.txt" "").2 =
        some (IngestError.validationError "upload.txt") ∧
      (ingestChunk ⟨[], none⟩ "upload.txt" "").1 = (⟨[], none⟩ : EvidenceIndex) ∧
      (ingestChunk ⟨[], none⟩ "upload.txt" "").1.chunks.length =
        (⟨[], none⟩ : EvidenceIndex).chunks.length) :=
  ⟨by decide, ingest_blank_chunk_rejected ⟨[], none⟩ "upload.txt" "" (by decide)⟩

/-- Modelled from the spec: a reviewer verdict. -/
inductive Verdict where
  | accept : Verdict
  | revise : Verdict
  deriving DecidableEq

/-- Modelled from the spec: one completed Round of a candidate (a Draft
paired with its ReviewResult); only the round number matters for the
round-cap invariant. -/
structure Round where
  round_number : Nat
  deriving DecidableEq

/-- Modelled from the spec: the Round Loop control states
`Drafting → Reviewing → {Accepted | Revising | RevisionExhausted | Failed}`,
with the current round number carried by the working states. -/
inductive LoopPhase where
  | drafting (n : Nat) : LoopPhase
  | reviewing (n : Nat) : LoopPhase
  | accepted : LoopPhase
  | revisionExhausted : LoopPhase
  | failed : LoopPhase
  deriving DecidableEq

/-- Modelled from the spec: a candidate as the Round Loop drives it — its
control phase and its append-only sequence of completed rounds. -/
structure LoopState where
  phase : LoopPhase
  rounds : List Round
  deriving DecidableEq

/-- Modelled from the spec: the externally determined outcome of one Round
Loop step — the writer call succeeding or exhausting its retries, or the
reviewer call returning a verdict or exhausting its retries. -/
inductive LoopInput where
  | writerOk : LoopInput
  | writerFailed : LoopInput
  | reviewOk (v : Verdict) : LoopInput
  | reviewFailed : LoopInput
  deriving DecidableEq

/-- The initial Round Loop state: `Drafting` round 1, no completed rounds. -/
def loopInit : LoopState :=
  { phase := LoopPhase.drafting 1, rounds := [] }

/-- Modelled from the spec: one Round Loop transition.  A successful
writer call moves `Drafting N → Reviewing N`; a reviewer `accept` verdict
completes round N and terminates in `Accepted`; a `revise` verdict
completes round N and loops to `Drafting (N+1)` when `N < max_rounds`,
else terminates in `RevisionExhausted`; an exhausted agent call fails the
candidate; terminal states absorb further inputs. -/
def loopStep (max_rounds : Nat) (s : LoopState) (i : LoopInput) : LoopState :=
  match s.phase, i with
  | LoopPhase.drafting n, LoopInput.writerOk => { s with phase := LoopPhase.reviewing n }
  | LoopPhase.drafting _, LoopInput.writerFailed => { s with phase := LoopPhase.failed }
  | LoopPhase.reviewing n, LoopInput.reviewOk Verdict.accept =>
      { phase := LoopPhase.accepted, rounds := s.rounds ++ [⟨n⟩] }
  | LoopPhase.reviewing n, LoopInput.reviewOk Verdict.revise =>
      if n < max_rounds then
        { phase := LoopPhase.drafting (n + 1), rounds := s.rounds ++ [⟨n⟩] }
      else
        { phase := LoopPhase.revisionExhausted, rounds := s.rounds ++ [⟨n⟩] }
  | LoopPhase.reviewing _, LoopInput.reviewFailed => { s with phase := LoopPhase.failed }
  | _, _ => s

/-- The Round Loop invariant: at most `max_rounds` completed rounds;
exactly `max_rounds` of them in `RevisionExhausted`; and in the working
states the current round number is one past the completed rounds and
within the cap. -/
def LoopInv (max_rounds : Nat) (s : LoopState) : Prop :=
  s.rounds.length ≤ max_rounds ∧
  (match s.phase with
  | LoopPhase.drafting n => n = s.rounds.length + 1 ∧ n ≤ max_rounds
  | LoopPhase.reviewing n => n = s.rounds.length + 1 ∧ n ≤ max_rounds
  | LoopPhase.revisionExhausted => s.rounds.length = max_rounds
  | _ => True)

theorem loopInv_init (max_rounds : Nat) (h : 1 ≤ max_rounds) :
    LoopInv max_rounds loopInit := by
  refine ⟨by simp [loopInit], ?_⟩
  show 1 = ([] : List Round).length + 1 ∧ 1 ≤ max_rounds
  exact ⟨rfl, h⟩

theorem loopInv_step (max_rounds : Nat) (s : LoopState) (i : LoopInput)
    (h : LoopInv max_rounds s) : LoopInv max_rounds (loopStep max_rounds s i) := by
  obtain ⟨ph, rounds⟩ := s
  obtain ⟨hlen, hph⟩ := h
  simp only [LoopInv] at hph
  dsimp only at hph hlen
  cases ph with
  | drafting n =>
    cases i with
    | writerOk => exact ⟨hlen, hph⟩
    | writerFailed => exact ⟨hlen, trivial⟩
    | reviewOk v => exact ⟨hlen, hph⟩
    | reviewFailed => exact ⟨hlen, hph⟩
  | reviewing n =>
    cases i with
    | writerOk => exact ⟨hlen, hph⟩
    | writerFailed => exact ⟨hlen, hph⟩
    | reviewFailed => exact ⟨hlen, trivial⟩
    | reviewOk v =>
      cases v with
      | accept =>
        refine ⟨?_, trivial⟩
        show (rounds ++ [(⟨n⟩ : Round)]).length ≤ max_rounds
        simp
        omega
      | revise =>
        have e1 : loopStep max_rounds ⟨LoopPhase.reviewing n, rounds⟩
            (LoopInput.reviewOk Verdict.revise) =
            if n < max_rounds then
              ⟨LoopPhase.drafting (n + 1), rounds ++ [⟨n⟩]⟩
            else
              ⟨LoopPhase.revisionExhausted, rounds ++ [⟨n⟩]⟩ := rfl
        rw [e1]
        split_ifs with hlt
        · refine ⟨?_, ?_⟩
          · show (rounds ++ [(⟨n⟩ : Round)]).length ≤ max_rounds
            simp
            omega
          · show n + 1 = (rounds ++ [(⟨n⟩ : Round)]).length + 1 ∧ n + 1 ≤ max_rounds
            simp
            omega
        · refine ⟨?_, ?_⟩
          · show (rounds ++ [(⟨n⟩ : Round)]).length ≤ max_rounds
            simp
            omega
          · show (rounds ++ [(⟨n⟩ : Round)]).length = max_rounds
            simp
            omega
  | accepted => cases i <;> exact ⟨hlen, trivial⟩
  | revisionExhausted => cases i <;> exact ⟨hlen, hph⟩
  | failed => cases i <;> exact ⟨hlen, trivial⟩

theorem loopInv_foldl (max_rounds : Nat) (inputs : List LoopInput) :
    ∀ s : LoopState, LoopInv max_rounds s →
      LoopInv max_rounds (inputs.foldl (loopStep max_rounds) s) := by
  induction inputs with
  | nil => intro s hs; exact hs
  | cons i rest ih =>
    intro s hs
    exact ih (loopStep max_rounds s i) (loopInv_step max_rounds s i hs)

/-- C3: running the Round Loop from its initial state under any input
sequence, a candidate never has more than `max_rounds` completed rounds,
and a candidate that is in the terminal `RevisionExhausted` state has
exactly `max_rounds` rounds. -/
theorem roundLoop_rounds_bounded (max_rounds : Nat) (inputs : List LoopInput)
    (h : 1 ≤ max_rounds) :
    (inputs.foldl (loopStep max_rounds) loopInit).rounds.length ≤ max_rounds ∧
    ((inputs.foldl (loopStep max_rounds) loopInit).phase =
        LoopPhase.revisionExhausted →
      (inputs.foldl (loopStep max_rounds) loopInit).rounds.length = max_rounds) := by
  have hinv := loopInv_foldl max_rounds inputs loopInit (loopInv_init max_rounds h)
  refine ⟨hinv.1, fun hph => ?_⟩
  have h2 := hinv.2
  rw [hph] at h2
  exact h2

/-- C3 witness: the cap theorem applied with `max_rounds = 2` to an input
sequence that drives the candidate to `RevisionExhausted`. -/
theorem roundLoop_rounds_bounded_witness :
    1 ≤ 2 ∧
    (([LoopInput.writerOk, LoopInput.reviewOk Verdict.revise, LoopInput.writerOk,
        LoopInput.reviewOk Verdict.revise].foldl (loopStep 2) loopInit).rounds.length ≤ 2 ∧
      (([LoopInput.writerOk, LoopInput.reviewOk Verdict.revise, LoopInput.writerOk,
          LoopInput.reviewOk Verdict.revise].foldl (loopStep 2) loopInit).phase =
          LoopPhase.revisionExhausted →
        ([LoopInput.writerOk, LoopInput.reviewOk Verdict.revise, LoopInput.writerOk,
          LoopInput.reviewOk Verdict.revise].foldl (loopStep 2) loopInit).rounds.length = 2)) :=
  ⟨by decide,
    roundLoop_rounds_bounded 2
      [LoopInput.writerOk, LoopInput.reviewOk Verdict.revise, LoopInput.writerOk,
        LoopInput.reviewOk Verdict.revise] (by decide)⟩

/-- The ranking order shared by the Scorer & Selector and the Evidence
Index: descending `key` (a score), ties broken by ascending `pos` (a
submission order or `sequence_index`). -/
def rankRel {α : Type} (key : α → Rat) (pos : α → Nat) (a b : α) : Prop :=
  key b < key a ∨ (key a = key b ∧ pos a ≤ pos b)

instance rankRelDecidable {α : Type} (key : α → Rat) (pos : α → Nat) :
    DecidableRel (rankRel key pos) :=
  fun _ _ => inferInstanceAs (Decidable (_ ∨ _ ∧ _))

instance rankRelTotal {α : Type} (key : α → Rat) (pos : α → Nat) :
    IsTotal α (rankRel key pos) := by
  constructor
  intro a b
  rcases lt_trichotomy (key a) (key b) with h | h | h
  · exact Or.inr (Or.inl h)
  · rcases Nat.le_total (pos a) (pos b) with hp | hp
    · exact Or.inl (Or.inr ⟨h, hp⟩)
    · exact Or.inr (Or.inr ⟨h.symm, hp⟩)
  · exact Or.inl (Or.inl h)

instance rankRelTrans {α : Type} (key : α → Rat) (pos : α → Nat) :
    IsTrans α (rankRel key pos) := by
  constructor
  intro a b c hab hbc
  rcases hab with h1 | ⟨e1, p1⟩ <;> rcases hbc with h2 | ⟨e2, p2⟩
  · exact Or.inl (h2.trans h1)
  · exact Or.inl (e2 ▸ h1)
  · exact Or.inl (lt_of_lt_of_le h2 (le_of_eq e1.symm))
  · exact Or.inr ⟨e1.trans e2, p1.trans p2⟩

/-- Modelled from the spec: a Candidate's terminal state
`{accepted, revision_exhausted, failed}`. -/
inductive TerminalState where
  | accepted : TerminalState
  | revisionExhausted : TerminalState
  | failed : TerminalState
  deriving DecidableEq

/-- Modelled from the spec: a terminal Candidate as the Scorer & Selector
sees it — its id, terminal state and numeric score; the submission order
is the candidate's position in the list handed to `select`. -/
structure Candidate where
  candidate_id : String
  terminal_state : TerminalState
  score : Rat

/-- Modelled from the spec: the non-`Failed` candidates paired with their
submission index, sorted by descending score with ties broken by
ascending submission order. -/
def rankedCandidates (cands : List Candidate) : List (Nat × Candidate) :=
  (cands.enum.filter
    (fun p => decide (p.2.terminal_state ≠ TerminalState.failed))).insertionSort
    (rankRel (fun p => p.2.score) (fun p => p.1))

/-- Modelled from the spec: `select(candidates, top_candidates)` — exclude
`Failed` candidates, sort by descending score (ties by ascending
submission order), truncate to `top_candidates` (cap 5), and return the
candidate ids. -/
def select (cands : List Candidate) (top_candidates : Nat) : List String :=
  ((rankedCandidates cands).take (min top_candidates 5)).map
    (fun p => p.2.candidate_id)

theorem length_filter_enumFrom {α : Type} (P : α → Bool) (l : List α) :
    ∀ n, ((List.enumFrom n l).filter (fun p => P p.2)).length =
      (l.filter P).length := by
  induction l with
  | nil => intro n; rfl
  | cons x xs ih =>
    intro n
    by_cases h : P x <;>
      simp [List.enumFrom, List.filter_cons, h, ih (n + 1)]

theorem select_length (cands : List Candidate) (top_candidates : Nat) :
    (select cands top_candidates).length =
      min (min top_candidates 5)
        ((cands.filter
          (fun c => decide (c.terminal_state ≠ TerminalState.failed))).length) := by
  rw [select, List.length_map, List.length_take, rankedCandidates,
    List.length_insertionSort, List.enum,
    length_filter_enumFrom (fun c => decide (c.terminal_state ≠ TerminalState.failed))
      cands 0]

theorem rankedCandidates_take_pairwise (cands : List Candidate) (top_candidates : Nat) :
    ((rankedCandidates cands).take (min top_candidates 5)).Pairwise
      (fun a b => b.2.score ≤ a.2.score ∧ (a.2.score = b.2.score → a.1 ≤ b.1)) := by
  have hs : List.Sorted (rankRel (fun p : Nat × Candidate => p.2.score) (fun p => p.1))
      (rankedCandidates cands) := List.sorted_insertionSort _ _
  have ht := List.Pairwise.sublist
    (List.take_sublist (min top_candidates 5) (rankedCandidates cands)) hs
  refine ht.imp ?_
  intro a b hab
  rcases hab with h | ⟨e, p⟩
  · exact ⟨le_of_lt h, fun heq => absurd h (not_lt.mpr (le_of_eq heq))⟩
  · exact ⟨le_of_eq e.symm, fun _ => p⟩

/-- The spec's worked selection example: three candidates submitted in
order A, B, C with scores 0.9, 0.9, 0.4, all accepted. -/
def exampleCandidates : List Candidate :=
  [⟨"A", TerminalState.accepted, 9/10⟩,
   ⟨"B", TerminalState.accepted, 9/10⟩,
   ⟨"C", TerminalState.accepted, 4/10⟩]

theorem select_example : select exampleCandidates 2 = ["A", "B"] := by
  have hfilter : exampleCandidates.enum.filter
      (fun p => decide (p.2.terminal_state ≠ TerminalState.failed)) =
      exampleCandidates.enum := by
    simp [exampleCandidates, List.enum, List.enumFrom, List.filter_cons]
  have h1 : List.orderedInsert (rankRel (fun p : Nat × Candidate => p.2.score)
      (fun p => p.1)) (1, ⟨"B", TerminalState.accepted, 9/10⟩)
      [(2, ⟨"C", TerminalState.accepted, 4/10⟩)] =
      [(1, ⟨"B", TerminalState.accepted, 9/10⟩),
       (2, ⟨"C", TerminalState.accepted, 4/10⟩)] := by
    rw [List.orderedInsert, if_pos]
    exact Or.inl (by norm_num)
  have h2 : List.orderedInsert (rankRel (fun p : Nat × Candidate => p.2.score)
      (fun p => p.1)) (0, ⟨"A", TerminalState.accepted, 9/10⟩)
      [(1, ⟨"B", TerminalState.accepted, 9/10⟩),
       (2, ⟨"C", TerminalState.accepted, 4/10⟩)] =
      [(0, ⟨"A", TerminalState.accepted, 9/10⟩),
       (1, ⟨"B", TerminalState.accepted, 9/10⟩),
       (2, ⟨"C", TerminalState.accepted, 4/10⟩)] := by
    rw [List.orderedInsert, if_pos]
    exact Or.inr ⟨rfl, by norm_num⟩
  have hsorted : rankedCandidates exampleCandidates =
      [(0, ⟨"A", TerminalState.accepted, 9/10⟩),
       (1, ⟨"B", TerminalState.accepted, 9/10⟩),
       (2, ⟨"C", TerminalState.accepted, 4/10⟩)] := by
    rw [rankedCandidates, hfilter]
    show List.insertionSort _ (exampleCandidates.enum) = _
    rw [show exampleCandidates.enum =
      [(0, (⟨"A", TerminalState.accepted, 9/10⟩ : Candidate)),
       (1, ⟨"B", TerminalState.accepted, 9/10⟩),
       (2, ⟨"C", TerminalState.accepted, 4/10⟩)] from rfl]
    simp only [List.insertionSort]
    rw [show List.orderedInsert _ (2, (⟨"C", TerminalState.accepted, 4/10⟩ : Candidate)) [] =
      [(2, (⟨"C", TerminalState.accepted, 4/10⟩ : Candidate))] from rfl]
    rw [h1, h2]
  rw [select, hsorted]
  rfl

/-- Six non-`Failed` candidates, more than the selection cap of 5. -/
def sixCandidates : List Candidate :=
  [⟨"C1", TerminalState.accepted, 0⟩, ⟨"C2", TerminalState.accepted, 0⟩,
   ⟨"C3", TerminalState.accepted, 0⟩, ⟨"C4", TerminalState.accepted, 0⟩,
   ⟨"C5", TerminalState.accepted, 0⟩, ⟨"C6", TerminalState.accepted, 0⟩]

/-- C2 counterexample: with six non-`Failed` candidates and
`top_candidates = 6`, `select` returns only 5 ids — the cap of 5 the spec
itself imposes — so the output length is not `min(top_candidates, number
of non-Failed candidates) = 6` for every `top_candidates` value. -/
theorem select_length_cap_counterexample :
    ¬ ((select sixCandidates 6).length =
      min 6 ((sixCandidates.filter
        (fun c => decide (c.terminal_state ≠ TerminalState.failed))).length)) := by
  have h := select_length sixCandidates 6
  have hf : (sixCandidates.filter
      (fun c => decide (c.terminal_state ≠ TerminalState.failed))).length = 6 := rfl
  rw [h, hf]
  decide

/-- C2 (amended): `select` returns an ordered sequence of candidate ids
whose length equals `min(top_candidates, 5, number of non-Failed
candidates)` (the spec caps `top_candidates` at 5), sorted by
non-increasing score with ties broken by ascending candidate submission
order; in particular, for three candidates submitted in order A, B, C
with scores 0.9, 0.9, 0.4 and `top_candidates = 2`, `select` returns
`[A, B]`. -/
theorem select_spec :
    (∀ (cands : List Candidate) (top_candidates : Nat),
      (select cands top_candidates).length =
        min (min top_candidates 5)
          ((cands.filter
            (fun c => decide (c.terminal_state ≠ TerminalState.failed))).length)) ∧
    (∀ (cands : List Candidate) (top_candidates : Nat),
      select cands top_candidates =
        ((rankedCandidates cands).take (min top_candidates 5)).map
          (fun p => p.2.candidate_id) ∧
      ((rankedCandidates cands).take (min top_candidates 5)).Pairwise
        (fun a b => b.2.score ≤ a.2.score ∧ (a.2.score = b.2.score → a.1 ≤ b.1))) ∧
    select exampleCandidates 2 = ["A", "B"] :=
  ⟨select_length,
   fun cands top_candidates => ⟨rfl, rankedCandidates_take_pairwise cands top_candidates⟩,
   select_example⟩

/-- Modelled from the spec: lower-cased alphanumeric terms of a text, the
tokenization the term weighting works over. -/
def tokenize (s : String) : List String :=
  (s.toLower.split (fun c => !c.isAlphanum)).filter (fun t => decide (t ≠ ""))

/-- Modelled from the spec: term frequency of term `t` in a chunk. -/
def termFreq (t : String) (c : EvidenceChunk) : Nat :=
  (tokenize c.text).count t

/-- Modelled from the spec: document frequency of term `t` over the chunk
corpus. -/
def docFreq (t : String) (chunks : List EvidenceChunk) : Nat :=
  (chunks.filter (fun c => decide (termFreq t c ≠ 0))).length

/-- Modelled from the spec: the inverse-document-frequency weighting over
the full chunk corpus — corpus size over document frequency, zero for a
term absent from the corpus. -/
def idfWeight (chunks : List EvidenceChunk) (t : String) : Rat :=
  if docFreq t chunks = 0 then 0
  else (chunks.length : Rat) / (docFreq t chunks : Rat)

/-- Modelled from the spec: a chunk's relevance to the query terms —
term-frequency times inverse-document-frequency, summed over the query
terms. -/
def scoreChunk (w : String → Rat) (qterms : List String) (c : EvidenceChunk) : Rat :=
  (qterms.map (fun t => (termFreq t c : Rat) * w t)).sum

/-- Modelled from the spec: rank the chunks by descending relevance, ties
broken by ascending `sequence_index`, and keep the best `k` as
`(chunk_id, relevance_score)` pairs. -/
def rankChunks (w : String → Rat) (chunks : List EvidenceChunk) (text : String)
    (k : Nat) : List (Nat × Rat) :=
  (((chunks.map (fun c => (c, scoreChunk w (tokenize text) c))).insertionSort
      (rankRel (fun p => p.2) (fun p => p.1.sequence_index))).take k).map
    (fun p => (p.1.id, p.2))

/-- Modelled from the spec: `query(text, k)` — the weighting is taken from
the cache when it was already computed (the index is immutable for the
life of a run, so it is computed once after ingestion closes) and is
otherwise computed now and cached; the ranked results and the updated
index are returned. -/
def query (idx : EvidenceIndex) (text : String) (k : Nat) :
    List (Nat × Rat) × EvidenceIndex :=
  let w := idx.idfCache.getD (idfWeight idx.chunks)
  (rankChunks w idx.chunks text k,
   { chunks := idx.chunks, idfCache := some w })

/-- An Evidence Index whose weighting cache, when set, is the weighting of
its own chunks — true of every index the model ever produces. -/
def IndexWF (idx : EvidenceIndex) : Prop :=
  ∀ f, idx.idfCache = some f → f = idfWeight idx.chunks

/-- C6: querying an unchanged index twice with the same `text` and `k`
returns identical ordered result sequences — the first call may fill the
weighting cache, but the cached weighting equals the recomputed one, so
the second call returns the same results (and the same index). -/
theorem query_idempotent (idx : EvidenceIndex) (text : String) (k : Nat)
    (h : IndexWF idx) :
    (query (query idx text k).2 text k).1 = (query idx text k).1 ∧
    (query (query idx text k).2 text k).2 = (query idx text k).2 := by
  cases hc : idx.idfCache with
  | none => simp [query, hc]
  | some f =>
    have hf : f = idfWeight idx.chunks := h f hc
    simp [query, hc, hf]

/-- C6 witness: the idempotence theorem applied to a concrete one-chunk
index with an unset cache. -/
theorem query_idempotent_witness :
    IndexWF ⟨[⟨0, "kb.md", "rural poverty", 0⟩], none⟩ ∧
    ((query (query ⟨[⟨0, "kb.md", "rural poverty", 0⟩], none⟩ "poverty" 1).2
        "poverty" 1).1 =
      (query ⟨[⟨0, "kb.md", "rural poverty", 0⟩], none⟩ "poverty" 1).1 ∧
    (query (query ⟨[⟨0, "kb.md", "rural poverty", 0⟩], none⟩ "poverty" 1).2
        "poverty" 1).2 =
      (query ⟨[⟨0, "kb.md", "rural poverty", 0⟩], none⟩ "poverty" 1).2) :=
  ⟨fun _ hf => Option.noConfusion hf,
   query_idempotent ⟨[⟨0, "kb.md", "rural poverty", 0⟩], none⟩ "poverty" 1
     (fun _ hf => Option.noConfusion hf)⟩
